import Mathlib

/-!
Shallow embedding of the `ringbuffer` package (a fixed-capacity circular
byte buffer).  The repository ships two variants of the implementation in
one source file; operations exclusive to the second variant carry a `2`
suffix (`Write2`, `Read2`, `New` is shared since both construct identically).

Go `[]byte` is modelled as `List Nat` (one `Nat` per byte), Go `int`
indices as `Nat` where the source keeps them in `[0, size)` and as `Int`
where the source accepts negative values (`ByteRange`, construction size).
Go `copy(dst[a:b], src)` is modelled by `goCopy`, which writes
`min (b - a) (len src)` bytes of `src` at offset `a`, never past the end
of `dst` (mirroring `copy` truncation).  A Go `panic` is modelled by
`Option`/`Except` `none`/`error` results.
-/

namespace RingBuffer

/-- Error values of the package: `ErrIsFull`, `ErrIsEmpty`,
`ErrTooManyDataToWrite` (second variant only) and `io.EOF`. -/
inductive GoErr where
  | isFull
  | isEmpty
  | tooMuchData
  | eof
deriving DecidableEq, Repr

/-- Panic values used by `ByteRange`: `ErrOutOfRange` and
`ErrInvalidSliceIndices`. -/
inductive RangePanic where
  | outOfRange
  | invalidSliceIndices
deriving DecidableEq, Repr

/-- Go slicing `l[a:b]` on a list (for `a ≤ b ≤ len l`). -/
def slice (l : List Nat) (a b : Nat) : List Nat :=
  (l.drop a).take (b - a)

/-- Writes the bytes of `src` into `buf` starting at index `pos`; writes
past the end of `buf` are dropped (as `List.set` out of range is the
identity), mirroring Go `copy` truncating at the destination length. -/
def setRange : List Nat → Nat → List Nat → List Nat
  | buf, _, [] => buf
  | buf, pos, c :: rest => setRange (buf.set pos c) (pos + 1) rest

/-- Go `copy(buf[dstStart:dstEnd], src)`: copies
`min (dstEnd - dstStart) (len src)` bytes of `src` to offset `dstStart`. -/
def goCopy (buf : List Nat) (dstStart dstEnd : Nat) (src : List Nat) : List Nat :=
  setRange buf dstStart (src.take (dstEnd - dstStart))

/-- The `Buffer` struct: backing array `buf`, its length `size`, read
cursor `r`, write cursor `w`, and the full flag. -/
structure Buffer where
  buf    : List Nat
  size   : Nat
  r      : Nat
  w      : Nat
  isFull : Bool
deriving DecidableEq, Repr

/-- Well-formedness: every state the Go code can actually reach satisfies
this (backing array of length `size > 0`, cursors in range, and the full
flag only set with coinciding cursors). -/
def Buffer.WF (b : Buffer) : Prop :=
  b.buf.length = b.size ∧ 0 < b.size ∧ b.r < b.size ∧ b.w < b.size ∧
    (b.isFull = true → b.r = b.w)

instance (b : Buffer) : Decidable b.WF := by
  unfold Buffer.WF; infer_instance

/-- Go `New(size)` (second variant; the first variant builds the same state
through the `WithSize` option): `make([]byte, size)` panics on a negative
size, otherwise yields a zeroed backing array with both cursors at 0 and
the full flag clear. -/
def Buffer.New (size : Int) : Option Buffer :=
  if size < 0 then none
  else some { buf := List.replicate size.toNat 0, size := size.toNat,
              r := 0, w := 0, isFull := false }

/-- Go `Length()`: the number of occupied (readable) bytes. -/
def Buffer.Length (b : Buffer) : Nat :=
  if b.w = b.r then
    if b.isFull then b.size else 0
  else if b.r < b.w then b.w - b.r
  else b.size - b.r + b.w

/-- Go `Capacity()`. -/
def Buffer.Capacity (b : Buffer) : Nat := b.size

/-- Go `Free()`: the number of bytes available to write. -/
def Buffer.Free (b : Buffer) : Nat :=
  if b.w = b.r then
    if b.isFull then 0 else b.size
  else if b.w < b.r then b.r - b.w
  else b.size - b.w + b.r

/-- Go `IsFull()`. -/
def Buffer.IsFull (b : Buffer) : Bool := b.isFull

/-- Go `IsEmpty()`. -/
def Buffer.IsEmpty (b : Buffer) : Bool := !b.isFull && b.w == b.r

/-- Go `Reset()`. -/
def Buffer.Reset (b : Buffer) : Buffer :=
  { b with r := 0, w := 0, isFull := false }

/-- The occupied region of the buffer, as a linear list: the circular
span of `Length` bytes starting at `r` (what `Bytes()` copies out). -/
def readSpan (buf : List Nat) (r sz n : Nat) : List Nat :=
  if r + n ≤ sz then slice buf r (r + n)
  else slice buf r sz ++ slice buf 0 (n - (sz - r))

/-- Occupied bytes of a buffer as a linear list. -/
def Buffer.contents (b : Buffer) : List Nat :=
  readSpan b.buf b.r b.size b.Length

/-- Result of a `Write`: the updated buffer, the byte count `n` and the
returned error. -/
structure WriteResult where
  buf : Buffer
  n   : Nat
  err : Option GoErr
deriving DecidableEq, Repr

/-- Result of a read-style operation: the updated buffer, the byte count
`n`, the bytes copied into the destination, the `atDelim` flag (only
meaningful for `ReadUntilFunc`) and the returned error. -/
structure ReadResult where
  buf     : Buffer
  n       : Nat
  data    : List Nat
  atDelim : Bool
  err     : Option GoErr
deriving DecidableEq, Repr

/-- First variant `Write(p)`: copies `min (Free) (len p)` bytes at `w`
(in at most two spans), advances `w` modulo `size`, sets the full flag
when the cursors meet, and reports `ErrIsFull` when `p` does not fit. -/
def Buffer.Write (b : Buffer) (p : List Nat) : WriteResult :=
  if p.length = 0 then { buf := b, n := 0, err := none }
  else if b.isFull then { buf := b, n := 0, err := some .isFull }
  else
    let n0 := if b.r ≤ b.w then b.size - b.w + b.r else b.r - b.w
    let n := if n0 > p.length then p.length else n0
    let err : Option GoErr := if p.length > n0 then some .isFull else none
    let buf1 :=
      if b.r ≤ b.w then
        let c1 := b.size - b.w
        if n ≤ c1 then goCopy b.buf b.w b.size (p.take n)
        else goCopy (goCopy b.buf b.w b.size (p.take c1)) 0 (n - c1) (p.drop c1)
      else goCopy b.buf b.w (b.w + n) (p.take n)
    let w1 := (b.w + n) % b.size
    { buf := { b with buf := buf1, w := w1, isFull := decide (w1 = b.r) },
      n := n, err := err }

/-- Second variant `Write(p)`: same copy logic, but when `p` exceeds the
free space it truncates `p` to the free space and reports
`ErrTooManyDataToWrite`; the write cursor is advanced by explicit
arithmetic instead of a modulo. -/
def Buffer.Write2 (b : Buffer) (p : List Nat) : WriteResult :=
  if p.length = 0 then { buf := b, n := 0, err := none }
  else if b.isFull then { buf := b, n := 0, err := some .isFull }
  else
    let avail := if b.r ≤ b.w then b.size - b.w + b.r else b.r - b.w
    let err : Option GoErr := if p.length > avail then some .tooMuchData else none
    let q := if p.length > avail then p.take avail else p
    let n := q.length
    let step :=
      if b.r ≤ b.w then
        let c1 := b.size - b.w
        if n ≤ c1 then (goCopy b.buf b.w b.size q, b.w + n)
        else (goCopy (goCopy b.buf b.w b.size (q.take c1)) 0 b.size (q.drop c1), n - c1)
      else (goCopy b.buf b.w b.size q, b.w + n)
    let w1 := if step.2 = b.size then 0 else step.2
    { buf := { b with buf := step.1, w := w1, isFull := decide (w1 = b.r) },
      n := n, err := err }

/-- The scanning loop of `ReadUntilFunc`: starting at logical offset `i`
with `k` iterations left (`k` starts at the byte budget `n`), returns the
final `i` together with the `atDelim` flag. -/
def scanLoop (buf : List Nat) (r sz : Nat) (f : Nat → Bool) : Nat → Nat → Nat × Bool
  | i, 0 => (i, false)
  | i, k + 1 =>
    if f (buf.getD ((r + i) % sz) 0) then (i + 1, true)
    else scanLoop buf r sz f (i + 1) k

/-- Go `ReadUntilFunc(p, f)`: fills a destination of length `destLen` up to
and including the first byte satisfying `f`, advancing `r` and clearing
the full flag when any byte was copied.  `f = none` is plain `Read`. -/
def Buffer.ReadUntilFunc (b : Buffer) (destLen : Nat) (f : Option (Nat → Bool)) :
    ReadResult :=
  let bLen := b.Length
  let n0 := if bLen > destLen then destLen else bLen
  if n0 = 0 then { buf := b, n := 0, data := [], atDelim := false, err := some .eof }
  else
    let scanned :=
      match f with
      | none => (n0, false, (none : Option GoErr))
      | some f =>
        let s := scanLoop b.buf b.r b.size f 0 n0
        (s.1, s.2, if s.1 = bLen ∧ s.2 = false then some GoErr.eof else none)
    let n := scanned.1
    if n > 0 then
      { buf := { b with r := (b.r + n) % b.size, isFull := false },
        n := n, data := readSpan b.buf b.r b.size n,
        atDelim := scanned.2.1, err := scanned.2.2 }
    else
      { buf := b, n := 0, data := [], atDelim := scanned.2.1, err := scanned.2.2 }

/-- First variant `Read(p)` delegates to `ReadUntilFunc(p, nil)`. -/
def Buffer.Read (b : Buffer) (destLen : Nat) : ReadResult :=
  b.ReadUntilFunc destLen none

/-- Second variant `Read(p)`: explicit empty check returning `ErrIsEmpty`,
then a one- or two-span copy of `min (Length) (len p)` bytes. -/
def Buffer.Read2 (b : Buffer) (destLen : Nat) : ReadResult :=
  if destLen = 0 then { buf := b, n := 0, data := [], atDelim := false, err := none }
  else if b.w = b.r ∧ b.isFull = false then
    { buf := b, n := 0, data := [], atDelim := false, err := some .isEmpty }
  else if b.r < b.w then
    let n := if b.w - b.r > destLen then destLen else b.w - b.r
    { buf := { b with r := (b.r + n) % b.size }, n := n,
      data := slice b.buf b.r (b.r + n), atDelim := false, err := none }
  else
    let n0 := b.size - b.r + b.w
    let n := if n0 > destLen then destLen else n0
    { buf := { b with r := (b.r + n) % b.size, isFull := false }, n := n,
      data := readSpan b.buf b.r b.size n, atDelim := false, err := none }

/-- Go `ReadByte()` (identical in both variants). -/
def Buffer.ReadByte (b : Buffer) : Buffer × Nat × Option GoErr :=
  if b.w = b.r ∧ b.isFull = false then (b, 0, some .isEmpty)
  else
    let c := b.buf.getD b.r 0
    let r1 := b.r + 1
    let r2 := if r1 = b.size then 0 else r1
    ({ b with r := r2, isFull := false }, c, none)

/-- Go `WriteByte(c)` / `writeByte(c)` (identical in both variants).  The
full flag is only ever set, never cleared, by this operation. -/
def Buffer.WriteByte (b : Buffer) (c : Nat) : Buffer × Option GoErr :=
  if b.w = b.r ∧ b.isFull = true then (b, some .isFull)
  else
    let buf1 := b.buf.set b.w c
    let w1 := b.w + 1
    let w2 := if w1 = b.size then 0 else w1
    ({ b with buf := buf1, w := w2, isFull := b.isFull || decide (w2 = b.r) }, none)

/-- Go `Consume(n)`: advances the read cursor by `n` occupied bytes;
panics (`ErrOutOfRange`, modelled as `none`) when `n` exceeds `Length`. -/
def Buffer.Consume (b : Buffer) (n : Nat) : Option Buffer :=
  if n = 0 then some b
  else if n > b.Length then none
  else some { b with r := (b.r + n) % b.size, isFull := false }

/-- Go `CharAt(n)`: panics (`none`) when the buffer is empty, otherwise
returns `buf[(r + n) % size]` with no bounds check against `Length`. -/
def Buffer.CharAt (b : Buffer) (n : Nat) : Option Nat :=
  if b.IsEmpty then none
  else some (b.buf.getD ((b.r + n) % b.size) 0)

/-- The unexported helper `byteRange(i, j)`: copies the circular span
from `i` up to `j`; when `i = j` it is empty unless the buffer is full,
in which case it is the whole array starting at `i`. -/
def Buffer.byteRange (b : Buffer) (i j : Nat) : List Nat :=
  if i = j then
    if b.isFull then slice b.buf i b.size ++ slice b.buf 0 j
    else []
  else if i < j then slice b.buf i j
  else slice b.buf i b.size ++ slice b.buf 0 j

/-- Go `ByteRange(Start(start0), End(end0))` with both options supplied (the
variadic option mechanism only provides the default `end = Length` when
no `End` option is passed).  A negative index `x` is remapped to
`Length - x`, i.e. `Length + |x|`; each check of the source is performed
in order, panics modelled as `Except.error`. -/
def Buffer.ByteRange (b : Buffer) (start0 end0 : Int) : Except RangePanic (List Nat) :=
  let bLen : Int := (b.Length : Int)
  let s1 := if start0 < 0 then bLen - start0 else start0
  if start0 < 0 ∧ s1 < 0 then .error .outOfRange
  else if s1 > bLen then .error .outOfRange
  else
    let e1 := if end0 < 0 then bLen - end0 else end0
    if end0 < 0 ∧ e1 < 0 then .error .outOfRange
    else if e1 > bLen then .error .outOfRange
    else if e1 < s1 then .error .invalidSliceIndices
    else if s1 = e1 then .ok []
    else
      .ok (b.byteRange ((b.r + s1.toNat) % b.size) ((b.r + e1.toNat) % b.size))

/-- The scanning loop of `ReadBytes(delim)`: from logical offset `i` with
`fuel` iterations remaining, returns `(i, j, err)` as left behind by the
Go loop (`j` is the array index one past the stop position).  The loop
always terminates within `size + 1` iterations on a well-formed
non-empty buffer; the fuel-exhausted branch is unreachable there. -/
def Buffer.readBytesLoop (b : Buffer) (delim : Nat) : Nat → Nat → Nat × Nat × Option GoErr
  | i, 0 => (i, (b.r + i) % b.size, none)
  | i, fuel + 1 =>
    let j := (b.r + i) % b.size
    if 0 < i ∧ j = b.w then (i, j, some .eof)
    else if b.buf.getD j 0 = delim then (i + 1, j + 1, none)
    else b.readBytesLoop delim (i + 1) fuel

/-- Go `ReadBytes(delim)`: scans the occupied region for `delim` and copies
out everything up to and including it (or everything with `io.EOF` when
absent).  Note: the source never moves the read cursor, so the buffer
component of the result is the input buffer. -/
def Buffer.ReadBytes (b : Buffer) (delim : Nat) : Buffer × List Nat × Option GoErr :=
  if b.w = b.r ∧ b.isFull = false then (b, [], none)
  else
    let s := b.readBytesLoop delim 0 (b.size + 1)
    let i := s.1
    let j := s.2.1
    let p0 := List.replicate i 0
    let p :=
      if b.r < j then goCopy p0 0 i (slice b.buf b.r j)
      else goCopy (goCopy p0 0 (b.size - b.r) (b.buf.drop b.r))
             (b.size - b.r) i (b.buf.take j)
    (b, p, s.2.2)

/-- The bounded loop of `ReadBytesFunc`: iterates `i` while `i < bLen`
(`k` is the remaining iteration count `bLen - i`); returns the final `i`
and the error, which is `io.EOF` unless a delimiter was found. -/
def Buffer.readBytesFuncLoop (b : Buffer) (f : Nat → Bool) : Nat → Nat → Nat × Option GoErr
  | i, 0 => (i, some .eof)
  | i, k + 1 =>
    if f (b.buf.getD ((b.r + i) % b.size) 0) then (i + 1, none)
    else b.readBytesFuncLoop f (i + 1) k

/-- Go `ReadBytesFunc(f)`: scans the whole occupied region for a byte
satisfying `f` and copies out everything up to and including it.  Like
`ReadBytes`, the source never moves the read cursor. -/
def Buffer.ReadBytesFunc (b : Buffer) (f : Nat → Bool) : Buffer × List Nat × Option GoErr :=
  let s := b.readBytesFuncLoop f 0 b.Length
  let p := if 0 < s.1 then b.byteRange b.r ((b.r + s.1) % b.size) else []
  (b, p, s.2)

/-- Reachable buffer states: everything obtainable from a freshly
constructed buffer of positive capacity by the mutating operations named
in the specification (`Write`, `Read`, `WriteByte`, `ReadByte`,
`Consume`, `Reset`). -/
inductive Reachable : Buffer → Prop where
  | fresh (size : Int) (b : Buffer) (h : 0 < size) (heq : Buffer.New size = some b) :
      Reachable b
  | write (b : Buffer) (p : List Nat) : Reachable b → Reachable (b.Write p).buf
  | read (b : Buffer) (destLen : Nat) : Reachable b → Reachable (b.Read destLen).buf
  | writeByte (b : Buffer) (c : Nat) : Reachable b → Reachable (b.WriteByte c).1
  | readByte (b : Buffer) : Reachable b → Reachable (b.ReadByte).1
  | consume (b : Buffer) (n : Nat) (b2 : Buffer) :
      Reachable b → b.Consume n = some b2 → Reachable b2
  | reset (b : Buffer) : Reachable b → Reachable b.Reset

end RingBuffer

namespace RingBuffer

theorem length_setRange (src : List Nat) (buf : List Nat) (pos : Nat) :
    (setRange buf pos src).length = buf.length := by
  induction src generalizing buf pos with
  | nil => rfl
  | cons c rest ih => rw [setRange, ih, List.length_set]

theorem length_goCopy (buf : List Nat) (a bnd : Nat) (src : List Nat) :
    (goCopy buf a bnd src).length = buf.length := by
  rw [goCopy, length_setRange]

theorem setRange_cons (y : Nat) (buf : List Nat) (pos : Nat) (src : List Nat) :
    setRange (y :: buf) (pos + 1) src = y :: setRange buf pos src := by
  induction src generalizing buf pos y with
  | nil => rfl
  | cons c rest ih =>
    rw [setRange, setRange]
    have : (y :: buf).set (pos + 1) c = y :: buf.set pos c := rfl
    rw [this, ih]

theorem setRange_zero (src buf : List Nat) (h : src.length ≤ buf.length) :
    setRange buf 0 src = src ++ buf.drop src.length := by
  induction src generalizing buf with
  | nil => simp [setRange]
  | cons c rest ih =>
    match buf with
    | [] => simp at h
    | x :: buf2 =>
      rw [setRange]
      have hset : (x :: buf2).set 0 c = c :: buf2 := rfl
      rw [hset]
      have h2 : rest.length ≤ buf2.length := by simp at h; omega
      calc setRange (c :: buf2) 1 rest = c :: setRange buf2 0 rest := setRange_cons c buf2 0 rest
        _ = c :: (rest ++ buf2.drop rest.length) := by rw [ih buf2 h2]
        _ = (c :: rest) ++ (x :: buf2).drop (c :: rest).length := by simp

theorem setRange_eq (src buf : List Nat) (pos : Nat) (h : pos + src.length ≤ buf.length) :
    setRange buf pos src = buf.take pos ++ src ++ buf.drop (pos + src.length) := by
  induction pos generalizing buf with
  | zero => simpa using setRange_zero src buf (by omega)
  | succ pos ih =>
    match buf with
    | [] => simp at h
    | x :: buf2 =>
      rw [setRange_cons, ih buf2 (by simp at h; omega)]
      simp [List.take_succ_cons, List.drop_succ_cons, Nat.succ_add]

theorem length_slice (l : List Nat) (a b : Nat) :
    (slice l a b).length = min (b - a) (l.length - a) := by
  simp [slice]

end RingBuffer

namespace RingBuffer

theorem length_add_free_of_wf (b : Buffer) (h : b.WF) : b.Length + b.Free = b.size := by
  obtain ⟨h1, h2, h3, h4, h5⟩ := h
  unfold Buffer.Length Buffer.Free
  split_ifs <;> omega

theorem length_le_size_of_wf (b : Buffer) (h : b.WF) : b.Length ≤ b.size := by
  obtain ⟨h1, h2, h3, h4, h5⟩ := h
  unfold Buffer.Length
  split_ifs <;> omega

theorem wf_Write (b : Buffer) (p : List Nat) (h : b.WF) : (b.Write p).buf.WF := by
  obtain ⟨h1, h2, h3, h4, h5⟩ := h
  simp only [Buffer.Write]
  split
  · exact ⟨h1, h2, h3, h4, h5⟩
  · split
    · exact ⟨h1, h2, h3, h4, h5⟩
    · refine ⟨?_, h2, h3, Nat.mod_lt _ h2, ?_⟩
      · simp only
        repeat' split
        all_goals simp [length_goCopy, h1]
      · intro hd
        simp only [decide_eq_true_eq] at hd
        exact hd.symm

theorem wf_ReadUntilFunc (b : Buffer) (destLen : Nat) (f : Option (Nat → Bool))
    (h : b.WF) : (b.ReadUntilFunc destLen f).buf.WF := by
  obtain ⟨h1, h2, h3, h4, h5⟩ := h
  simp only [Buffer.ReadUntilFunc]
  repeat' split
  all_goals
    first
      | exact ⟨h1, h2, h3, h4, h5⟩
      | exact ⟨h1, h2, Nat.mod_lt _ h2, h4, by intro hx; exact Bool.noConfusion hx⟩

theorem wf_Read (b : Buffer) (destLen : Nat) (h : b.WF) : (b.Read destLen).buf.WF :=
  wf_ReadUntilFunc b destLen none h

theorem wf_WriteByte (b : Buffer) (c : Nat) (h : b.WF) : (b.WriteByte c).1.WF := by
  obtain ⟨h1, h2, h3, h4, h5⟩ := h
  simp only [Buffer.WriteByte]
  split
  · exact ⟨h1, h2, h3, h4, h5⟩
  · rename_i hcond
    have hflag : ∀ w2 : Nat, (b.isFull || decide (w2 = b.r)) = true → b.r = w2 := by
      intro w2 hd
      simp only [Bool.or_eq_true, decide_eq_true_eq] at hd
      rcases hd with hd | hd
      · exact absurd ⟨(h5 hd).symm, hd⟩ hcond
      · exact hd.symm
    split
    · exact ⟨by simpa using h1, h2, h3, h2, hflag 0⟩
    · exact ⟨by simpa using h1, h2, h3, by show b.w + 1 < b.size; omega, hflag (b.w + 1)⟩

theorem wf_ReadByte (b : Buffer) (h : b.WF) : (b.ReadByte).1.WF := by
  obtain ⟨h1, h2, h3, h4, h5⟩ := h
  simp only [Buffer.ReadByte]
  split
  · exact ⟨h1, h2, h3, h4, h5⟩
  · split
    · exact ⟨h1, h2, h2, h4, by intro hx; exact Bool.noConfusion hx⟩
    · exact ⟨h1, h2, by show b.r + 1 < b.size; omega, h4,
        by intro hx; exact Bool.noConfusion hx⟩

theorem wf_Consume (b : Buffer) (n : Nat) (b2 : Buffer) (h : b.WF)
    (heq : b.Consume n = some b2) : b2.WF := by
  obtain ⟨h1, h2, h3, h4, h5⟩ := h
  simp only [Buffer.Consume] at heq
  split at heq
  · cases heq
    exact ⟨h1, h2, h3, h4, h5⟩
  · split at heq
    · cases heq
    · cases heq
      exact ⟨h1, h2, Nat.mod_lt _ h2, h4, by intro hx; exact Bool.noConfusion hx⟩

theorem wf_Reset (b : Buffer) (h : b.WF) : b.Reset.WF := by
  obtain ⟨h1, h2, h3, h4, h5⟩ := h
  exact ⟨h1, h2, h2, h2, by intro hx; exact Bool.noConfusion hx⟩

theorem wf_New (size : Int) (b : Buffer) (h : 0 < size) (heq : Buffer.New size = some b) :
    b.WF := by
  simp only [Buffer.New] at heq
  rw [if_neg (by omega)] at heq
  cases heq
  have hpos : 0 < size.toNat := by omega
  exact ⟨by simp, hpos, hpos, hpos, by intro hx; exact Bool.noConfusion hx⟩

theorem reachable_wf (b : Buffer) (h : Reachable b) : b.WF := by
  induction h with
  | fresh size b hpos heq => exact wf_New size b hpos heq
  | write b p _ ih => exact wf_Write b p ih
  | read b destLen _ ih => exact wf_Read b destLen ih
  | writeByte b c _ ih => exact wf_WriteByte b c ih
  | readByte b _ ih => exact wf_ReadByte b ih
  | consume b n b2 _ heq ih => exact wf_Consume b n b2 ih heq
  | reset b _ ih => exact wf_Reset b ih

/-- C3: for every reachable buffer state (fresh buffer followed by any
sequence of `Write`, `Read`, `WriteByte`, `ReadByte`, `Consume` and
`Reset`), `Length() + Free() = Capacity()` holds and `Length()` lies in
`[0, Capacity()]` (the lower bound is inherent to `Nat`). -/
theorem C3_occupancy_conservation (b : Buffer) (h : Reachable b) :
    b.Length + b.Free = b.Capacity ∧ b.Length ≤ b.Capacity := by
  have hwf := reachable_wf b h
  exact ⟨length_add_free_of_wf b hwf, length_le_size_of_wf b hwf⟩

/-- Witness for C3 at a concrete reachable state: a fresh buffer of
capacity 4 after writing three bytes and then reading one byte back. -/
theorem C3_occupancy_conservation_witness :
    (((⟨List.replicate 4 0, 4, 0, 0, false⟩ : Buffer).Write [1, 2, 3]).buf.Read 1).buf.Length +
        (((⟨List.replicate 4 0, 4, 0, 0, false⟩ : Buffer).Write [1, 2, 3]).buf.Read 1).buf.Free =
      (((⟨List.replicate 4 0, 4, 0, 0, false⟩ : Buffer).Write [1, 2, 3]).buf.Read 1).buf.Capacity ∧
      (((⟨List.replicate 4 0, 4, 0, 0, false⟩ : Buffer).Write [1, 2, 3]).buf.Read 1).buf.Length ≤
      (((⟨List.replicate 4 0, 4, 0, 0, false⟩ : Buffer).Write [1, 2, 3]).buf.Read 1).buf.Capacity :=
  C3_occupancy_conservation _
    (Reachable.read _ 1 (Reachable.write _ [1, 2, 3]
      (Reachable.fresh 4 _ (by decide) (by decide))))

theorem Write_eq (b : Buffer) (p : List Nat) (n0 n : Nat)
    (hf : b.isFull = false) (hp : ¬ p.length = 0)
    (hn0 : n0 = if b.r ≤ b.w then b.size - b.w + b.r else b.r - b.w)
    (hn : n = if n0 > p.length then p.length else n0) :
    b.Write p =
      { buf := { b with
          buf := if b.r ≤ b.w then
                   if n ≤ b.size - b.w then goCopy b.buf b.w b.size (p.take n)
                   else goCopy (goCopy b.buf b.w b.size (p.take (b.size - b.w))) 0
                          (n - (b.size - b.w)) (p.drop (b.size - b.w))
                 else goCopy b.buf b.w (b.w + n) (p.take n),
          w := (b.w + n) % b.size,
          isFull := decide ((b.w + n) % b.size = b.r) },
        n := n,
        err := if p.length > n0 then some GoErr.isFull else none } := by
  subst hn
  subst hn0
  simp only [Buffer.Write]
  rw [if_neg hp, if_neg (by simp [hf])]

theorem Read_eq (b : Buffer) (destLen n : Nat)
    (hn : n = if b.Length > destLen then destLen else b.Length) (hpos : ¬ n = 0) :
    b.Read destLen =
      { buf := { b with r := (b.r + n) % b.size, isFull := false }, n := n,
        data := readSpan b.buf b.r b.size n, atDelim := false, err := none } := by
  subst hn
  simp only [Buffer.Read, Buffer.ReadUntilFunc]
  rw [if_neg hpos, if_pos (Nat.pos_of_ne_zero hpos)]

/-- C2: writing exactly `Capacity()` bytes into an empty buffer makes
`IsFull()` true and `Length() = Capacity()`; reading all of them back
makes `IsEmpty()` true and `Length() = 0`; in both states the cursors
coincide, yet full and empty are distinguished by the flag. -/
theorem C2_full_empty_disambiguation (b : Buffer) (p : List Nat) (hwf : b.WF)
    (hempty : b.IsEmpty = true) (hlen : p.length = b.Capacity) :
    (b.Write p).buf.IsFull = true ∧ (b.Write p).buf.Length = b.Capacity ∧
      (b.Write p).buf.r = (b.Write p).buf.w ∧
      ((b.Write p).buf.Read b.Capacity).buf.IsEmpty = true ∧
      ((b.Write p).buf.Read b.Capacity).buf.Length = 0 ∧
      ((b.Write p).buf.Read b.Capacity).buf.r = ((b.Write p).buf.Read b.Capacity).buf.w := by
  obtain ⟨h1, h2, h3, h4, h5⟩ := hwf
  simp only [Buffer.IsEmpty, Bool.and_eq_true, Bool.not_eq_true', beq_iff_eq] at hempty
  obtain ⟨hful, hwr⟩ := hempty
  have hplen : p.length = b.size := hlen
  have hp0 : ¬ p.length = 0 := by omega
  have hW := Write_eq b p b.size b.size hful hp0 (by rw [if_pos (by omega)]; omega)
    (by rw [if_neg (by omega)])
  have hw1 : (b.w + b.size) % b.size = b.r := by
    rw [Nat.add_mod_right, Nat.mod_eq_of_lt h4]
    exact hwr
  have hWw : (b.Write p).buf.w = b.r := by rw [hW]; exact hw1
  have hWr : (b.Write p).buf.r = b.r := by rw [hW]
  have hWsize : (b.Write p).buf.size = b.size := by rw [hW]
  have hWfull : (b.Write p).buf.isFull = true := by
    rw [hW]
    simp [hw1]
  have hWlen : (b.Write p).buf.Length = b.size := by
    unfold Buffer.Length
    rw [hWw, hWr, hWsize, hWfull]
    simp
  have hRead := Read_eq ((b.Write p).buf) b.Capacity b.size
    (by rw [hWlen]; simp [Buffer.Capacity]) (by omega)
  have hrr : (b.r + b.size) % b.size = b.r := by
    rw [Nat.add_mod_right, Nat.mod_eq_of_lt h3]
  refine ⟨?_, ?_, ?_, ?_, ?_, ?_⟩
  · unfold Buffer.IsFull
    exact hWfull
  · exact hWlen
  · rw [hWr, hWw]
  · rw [hRead]
    unfold Buffer.IsEmpty
    simp [hWw, hWr, hWsize, hrr]
  · rw [hRead]
    unfold Buffer.Length
    simp [hWw, hWr, hWsize, hrr]
  · rw [hRead]
    simp [hWw, hWr, hWsize, hrr]

/-- Witness for C2: a concrete capacity-2 empty buffer with both cursors
at position 1, filled with two bytes and then drained. -/
theorem C2_full_empty_disambiguation_witness :
    ((⟨[0, 0], 2, 1, 1, false⟩ : Buffer).Write [4, 5]).buf.IsFull = true ∧
      ((⟨[0, 0], 2, 1, 1, false⟩ : Buffer).Write [4, 5]).buf.Length =
        (⟨[0, 0], 2, 1, 1, false⟩ : Buffer).Capacity ∧
      ((⟨[0, 0], 2, 1, 1, false⟩ : Buffer).Write [4, 5]).buf.r =
        ((⟨[0, 0], 2, 1, 1, false⟩ : Buffer).Write [4, 5]).buf.w ∧
      (((⟨[0, 0], 2, 1, 1, false⟩ : Buffer).Write [4, 5]).buf.Read
        (⟨[0, 0], 2, 1, 1, false⟩ : Buffer).Capacity).buf.IsEmpty = true ∧
      (((⟨[0, 0], 2, 1, 1, false⟩ : Buffer).Write [4, 5]).buf.Read
        (⟨[0, 0], 2, 1, 1, false⟩ : Buffer).Capacity).buf.Length = 0 ∧
      (((⟨[0, 0], 2, 1, 1, false⟩ : Buffer).Write [4, 5]).buf.Read
        (⟨[0, 0], 2, 1, 1, false⟩ : Buffer).Capacity).buf.r =
      (((⟨[0, 0], 2, 1, 1, false⟩ : Buffer).Write [4, 5]).buf.Read
        (⟨[0, 0], 2, 1, 1, false⟩ : Buffer).Capacity).buf.w :=
  C2_full_empty_disambiguation _ [4, 5] (by decide) (by decide) (by decide)

/-- C9 (amended): a `Read` with a zero-length destination copies zero
bytes and leaves the buffer unchanged in both variants; the second
variant signals no error, but the first variant (through
`ReadUntilFunc`) signals `io.EOF`. -/
theorem C9_read_zero_dest (b : Buffer) :
    (b.Read 0).buf = b ∧ (b.Read 0).n = 0 ∧ (b.Read 0).data = [] ∧
      (b.Read 0).err = some GoErr.eof ∧
      (b.Read2 0).buf = b ∧ (b.Read2 0).n = 0 ∧ (b.Read2 0).data = [] ∧
      (b.Read2 0).err = none := by
  have h0 : (if b.Length > 0 then (0 : Nat) else b.Length) = 0 := by
    split <;> omega
  simp [Buffer.Read, Buffer.ReadUntilFunc, Buffer.Read2, h0]

/-- C9 counterexample: on a fresh capacity-4 buffer the first variant
`Read` with a zero-length destination returns the `io.EOF` signal, so it
is not true that `Read` into a zero-length destination signals no error
for every buffer state. -/
theorem C9_counterexample :
    ((⟨List.replicate 4 0, 4, 0, 0, false⟩ : Buffer).Read 0).err = some GoErr.eof := by
  decide

/-- C4 (amended): construction never validates the capacity — there is
no `InvalidCapacity` error in the code.  For every capacity `c ≥ 0`,
including `0`, `New` succeeds with a zeroed backing array of length `c`,
`readPos = writePos = 0` and `full = false` (well-formed and empty when
`c > 0`); for negative `c` the Go `make` panics. -/
theorem C4_new_no_validation (c : Int) :
    (0 ≤ c → Buffer.New c = some ⟨List.replicate c.toNat 0, c.toNat, 0, 0, false⟩ ∧
      ∀ b, Buffer.New c = some b →
        b.Length = 0 ∧ b.IsEmpty = true ∧ b.Capacity = c.toNat ∧ (0 < c → b.WF)) ∧
    (c < 0 → Buffer.New c = none) := by
  constructor
  · intro hc
    have hne : ¬ c < 0 := by omega
    refine ⟨by simp [Buffer.New, hne], ?_⟩
    intro b hb
    simp only [Buffer.New, hne, if_false, Option.some.injEq] at hb
    subst hb
    exact ⟨rfl, rfl, rfl, fun hpos => wf_New c _ hpos (by simp [Buffer.New, hne])⟩
  · intro hc
    simp [Buffer.New, hc]

/-- Witness for C4 (amended) at capacities 3 and -1. -/
theorem C4_new_no_validation_witness :
    Buffer.New 3 = some ⟨List.replicate (3 : Int).toNat 0, (3 : Int).toNat, 0, 0, false⟩ ∧
      Buffer.New (-1) = none :=
  ⟨((C4_new_no_validation 3).1 (by decide)).1, (C4_new_no_validation (-1)).2 (by decide)⟩

/-- C4 counterexample: construction with capacity 0 does not fail with
any error: it returns a (degenerate) zero-capacity buffer. -/
theorem C4_counterexample : Buffer.New 0 = some ⟨[], 0, 0, 0, false⟩ := by
  decide

theorem Write2_eq (b : Buffer) (p : List Nat) (avail n : Nat) (q bufc : List Nat) (w0 : Nat)
    (hf : b.isFull = false) (hp : ¬ p.length = 0)
    (ha : avail = if b.r ≤ b.w then b.size - b.w + b.r else b.r - b.w)
    (hq : q = if p.length > avail then p.take avail else p)
    (hn : n = q.length)
    (hbufc : bufc = if b.r ≤ b.w then
               if n ≤ b.size - b.w then goCopy b.buf b.w b.size q
               else goCopy (goCopy b.buf b.w b.size (q.take (b.size - b.w))) 0 b.size
                      (q.drop (b.size - b.w))
             else goCopy b.buf b.w b.size q)
    (hw0 : w0 = if b.r ≤ b.w then
              (if n ≤ b.size - b.w then b.w + n else n - (b.size - b.w))
            else b.w + n) :
    b.Write2 p =
      { buf := { b with
          buf := bufc,
          w := if w0 = b.size then 0 else w0,
          isFull := decide ((if w0 = b.size then 0 else w0) = b.r) },
        n := n,
        err := if p.length > avail then some GoErr.tooMuchData else none } := by
  subst hbufc hw0 hn hq ha
  simp only [Buffer.Write2]
  rw [if_neg hp, if_neg (by simp [hf])]
  split_ifs <;> rfl

/-- C6 counterexample: on an empty capacity-2 buffer, the second variant
`Write` of three bytes signals too-much-data yet modifies the buffer
(two bytes are written and the buffer becomes full), refuting that the
buffer state is exactly what it was before the call. -/
theorem C6_counterexample :
    ((⟨[0, 0], 2, 0, 0, false⟩ : Buffer).Write2 [1, 2, 3]).err = some GoErr.tooMuchData ∧
      ((⟨[0, 0], 2, 0, 0, false⟩ : Buffer).Write2 [1, 2, 3]).buf ≠
        (⟨[0, 0], 2, 0, 0, false⟩ : Buffer) ∧
      ((⟨[0, 0], 2, 0, 0, false⟩ : Buffer).Write2 [1, 2, 3]).n = 2 := by
  decide

/-- C5: evaluation at the failing input.  Writing the bytes of
`"ab,cd,"` (97, 98, 44, 99, 100, 44) into a fresh capacity-8 buffer and
calling `ReadBytes` with delimiter `,` (44) returns `"ab,"` — but leaves
the buffer, including `readPos`, completely unchanged, so the second
call returns `"ab,"` again instead of `"cd,"`.  `ReadBytesFunc` likewise
leaves the buffer unchanged.  This contradicts the claim (and the
doc comment of `ReadBytes` itself, which promises consuming,
`bufio`-style reads): the read cursor is never advanced, not even past a
found delimiter. -/
theorem C5_readBytes_never_advances :
    (((⟨List.replicate 8 0, 8, 0, 0, false⟩ : Buffer).Write
        [97, 98, 44, 99, 100, 44]).buf.ReadBytes 44).2.1 = [97, 98, 44] ∧
      (((⟨List.replicate 8 0, 8, 0, 0, false⟩ : Buffer).Write
        [97, 98, 44, 99, 100, 44]).buf.ReadBytes 44).1 =
        ((⟨List.replicate 8 0, 8, 0, 0, false⟩ : Buffer).Write
          [97, 98, 44, 99, 100, 44]).buf ∧
      ((((⟨List.replicate 8 0, 8, 0, 0, false⟩ : Buffer).Write
        [97, 98, 44, 99, 100, 44]).buf.ReadBytes 44).1.ReadBytes 44).2.1 = [97, 98, 44] ∧
      (((⟨List.replicate 8 0, 8, 0, 0, false⟩ : Buffer).Write
        [97, 98, 44, 99, 100, 44]).buf.ReadBytesFunc (fun c => c == 44)).1 =
        ((⟨List.replicate 8 0, 8, 0, 0, false⟩ : Buffer).Write
          [97, 98, 44, 99, 100, 44]).buf := by
  decide

/-- C7: evaluation at the failing input.  With the bytes of `"abcde"`
occupied in a fresh capacity-8 buffer (`Length = 5`), a nonnegative
in-range call behaves as specified (`ByteRange(1, 4) = "bcd"`), but any
negative index panics `ErrOutOfRange`: the code maps a negative index
`-k` to `Length - (-k) = Length + k`, which always exceeds `Length`, so
`ByteRange(1, -1)` (which the claim says denotes `[1, Length - 1)`)
panics instead of returning `"bcd"`.  Range inversion on nonnegative
indices panics `ErrInvalidSliceIndices` as specified. -/
theorem C7_byteRange_negative_index_panics :
    (((⟨List.replicate 8 0, 8, 0, 0, false⟩ : Buffer).Write
        [97, 98, 99, 100, 101]).buf.ByteRange 1 4) = Except.ok [98, 99, 100] ∧
      (((⟨List.replicate 8 0, 8, 0, 0, false⟩ : Buffer).Write
        [97, 98, 99, 100, 101]).buf.ByteRange 1 (-1)) =
        Except.error RangePanic.outOfRange ∧
      (((⟨List.replicate 8 0, 8, 0, 0, false⟩ : Buffer).Write
        [97, 98, 99, 100, 101]).buf.ByteRange (-2) 5) =
        Except.error RangePanic.outOfRange ∧
      (((⟨List.replicate 8 0, 8, 0, 0, false⟩ : Buffer).Write
        [97, 98, 99, 100, 101]).buf.ByteRange 3 2) =
        Except.error RangePanic.invalidSliceIndices :=
  ⟨rfl, rfl, rfl, rfl⟩

/-- C8 counterexample: after writing bytes 10, 20, 30 to a fresh
capacity-4 buffer and reading two of them, the buffer is non-empty with
`Length = 1` and occupied region `[30]`; yet `CharAt 2` — an offset
outside `[0, Length)` — does not fail: it returns byte 10, a stale,
already-consumed byte outside the occupied region. -/
theorem C8_counterexample :
    ((((⟨List.replicate 4 0, 4, 0, 0, false⟩ : Buffer).Write
        [10, 20, 30]).buf.Read 2).buf.Length = 1) ∧
      ((((⟨List.replicate 4 0, 4, 0, 0, false⟩ : Buffer).Write
        [10, 20, 30]).buf.Read 2).buf.IsEmpty = false) ∧
      ((((⟨List.replicate 4 0, 4, 0, 0, false⟩ : Buffer).Write
        [10, 20, 30]).buf.Read 2).buf.contents = [30]) ∧
      ((((⟨List.replicate 4 0, 4, 0, 0, false⟩ : Buffer).Write
        [10, 20, 30]).buf.Read 2).buf.CharAt 2 = some 10) := by
  decide

theorem drop_len_append (A B : List Nat) (k : Nat) (h : A.length = k) :
    (A ++ B).drop k = B := by
  subst h
  exact List.drop_left A B

theorem take_len_append (A B : List Nat) (k : Nat) (h : A.length = k) :
    (A ++ B).take k = A := by
  subst h
  exact List.take_left A B

theorem mod_two_size (x sz : Nat) (h1 : sz ≤ x) (h2 : x < 2 * sz) : x % sz = x - sz := by
  rw [Nat.mod_eq_sub_mod h1, Nat.mod_eq_of_lt (by omega)]

theorem readSpan_write_back (buf p : List Nat) (k sz : Nat)
    (hbl : buf.length = sz) (hk : k < sz) (hlen : p.length ≤ sz) :
    readSpan (if p.length ≤ sz - k then goCopy buf k sz p
              else goCopy (goCopy buf k sz (p.take (sz - k))) 0 (p.length - (sz - k))
                     (p.drop (sz - k)))
      k sz p.length = p := by
  by_cases hc : p.length ≤ sz - k
  · rw [if_pos hc]
    have hgc : goCopy buf k sz p = buf.take k ++ p ++ buf.drop (k + p.length) := by
      rw [goCopy, List.take_of_length_le (by omega), setRange_eq p buf k (by omega)]
    rw [hgc, readSpan, if_pos (by omega), slice]
    have hadd : k + p.length - k = p.length := by omega
    rw [hadd, List.append_assoc]
    rw [drop_len_append _ _ k (by rw [List.length_take]; omega)]
    exact take_len_append p _ p.length rfl
  · rw [if_neg hc]
    have hc1 : sz - k < p.length := by omega
    have hlen1 : (p.take (sz - k)).length = sz - k := by rw [List.length_take]; omega
    have hY : goCopy buf k sz (p.take (sz - k)) = buf.take k ++ p.take (sz - k) := by
      rw [goCopy, List.take_take, min_self, setRange_eq _ buf k (by rw [hlen1]; omega)]
      rw [show k + (p.take (sz - k)).length = sz from by rw [hlen1]; omega]
      rw [List.drop_eq_nil_of_le (by omega), List.append_nil]
    have hlen2 : (p.drop (sz - k)).length = p.length - (sz - k) := List.length_drop _ _
    have htk : (p.drop (sz - k)).take (p.length - (sz - k) - 0) = p.drop (sz - k) := by
      rw [Nat.sub_zero]
      exact List.take_of_length_le (le_of_eq hlen2)
    have hX : goCopy (buf.take k ++ p.take (sz - k)) 0 (p.length - (sz - k)) (p.drop (sz - k))
        = p.drop (sz - k) ++ ((buf.take k).drop (p.length - (sz - k)) ++ p.take (sz - k)) := by
      rw [goCopy, htk]
      rw [setRange_zero _ _
        (by rw [hlen2, List.length_append, List.length_take, List.length_take, hbl]; omega)]
      rw [hlen2]
      rw [List.drop_append_of_le_length (by rw [List.length_take]; omega)]
    rw [hY, hX, readSpan, if_neg (by omega), slice, slice]
    simp only [List.drop_zero, Nat.sub_zero]
    generalize hM : (buf.take k).drop (p.length - (sz - k)) = M
    have hMlen : M.length = k - (p.length - (sz - k)) := by
      rw [← hM, List.length_drop, List.length_take, hbl]
      omega
    have h1 : (p.drop (sz - k) ++ (M ++ p.take (sz - k))).drop k = p.take (sz - k) := by
      have hk2 : (p.drop (sz - k) ++ (M ++ p.take (sz - k))).drop k
          = ((p.drop (sz - k) ++ (M ++ p.take (sz - k))).drop
              (p.length - (sz - k))).drop (k - (p.length - (sz - k))) := by
        rw [List.drop_drop]
        congr 1
        omega
      rw [hk2, drop_len_append _ _ _ hlen2, drop_len_append _ _ _ (by rw [hMlen])]
    have h2 : (p.drop (sz - k) ++ (M ++ p.take (sz - k))).take (p.length - (sz - k))
        = p.drop (sz - k) := take_len_append _ _ _ hlen2
    rw [h1, h2, List.take_of_length_le (by rw [hlen1])]
    exact List.take_append_drop (sz - k) p

/-- C1: for every well-formed empty buffer (any cursor position
`readPos = writePos`, hence every wraparound configuration) and every
byte sequence `S` with `len(S) ≤ Capacity()`, writing `S` and then
reading `len(S)` bytes yields exactly `S`. -/
theorem C1_round_trip (b : Buffer) (p : List Nat) (hwf : b.WF) (hempty : b.IsEmpty = true)
    (hlen : p.length ≤ b.Capacity) :
    ((b.Write p).buf.Read p.length).data = p ∧
      ((b.Write p).buf.Read p.length).n = p.length := by
  obtain ⟨h1, h2, h3, h4, h5⟩ := hwf
  simp only [Buffer.IsEmpty, Bool.and_eq_true, Bool.not_eq_true', beq_iff_eq] at hempty
  obtain ⟨hful, hwr⟩ := hempty
  have hlen2 : p.length ≤ b.size := hlen
  by_cases hp : p.length = 0
  · have hpnil : p = [] := List.length_eq_zero.mp hp
    subst hpnil
    have h0 : (if b.Length > 0 then (0 : Nat) else b.Length) = 0 := by split <;> omega
    constructor <;> simp [Buffer.Write, Buffer.Read, Buffer.ReadUntilFunc, h0]
  · have hW := Write_eq b p b.size p.length hful hp
      (by rw [if_pos (by omega)]; omega) (by split_ifs <;> omega)
    have hBr : (b.Write p).buf.r = b.r := by rw [hW]
    have hBsize : (b.Write p).buf.size = b.size := by rw [hW]
    have hBw : (b.Write p).buf.w = (b.w + p.length) % b.size := by rw [hW]
    have hBfull : (b.Write p).buf.isFull = decide ((b.w + p.length) % b.size = b.r) := by
      rw [hW]
    have hBbuf : (b.Write p).buf.buf =
        (if p.length ≤ b.size - b.r then goCopy b.buf b.r b.size p
         else goCopy (goCopy b.buf b.r b.size (p.take (b.size - b.r))) 0
                (p.length - (b.size - b.r)) (p.drop (b.size - b.r))) := by
      rw [hW]
      dsimp only
      rw [if_pos (show b.r ≤ b.w from by omega), hwr, List.take_length]
    have hBlen : (b.Write p).buf.Length = p.length := by
      unfold Buffer.Length
      rw [hBw, hBr, hBsize, hBfull, hwr]
      by_cases hps : p.length = b.size
      · have hmod : (b.r + p.length) % b.size = b.r := by
          rw [hps, Nat.add_mod_right, Nat.mod_eq_of_lt h3]
        rw [hmod]
        simp [hps]
      · have hp0 : 0 < p.length := by omega
        rcases Nat.lt_or_ge (b.r + p.length) b.size with hx | hx
        · have hmod : (b.r + p.length) % b.size = b.r + p.length := Nat.mod_eq_of_lt hx
          rw [hmod, if_neg (by omega), if_pos (by omega)]
          omega
        · have hmod : (b.r + p.length) % b.size = b.r + p.length - b.size :=
            mod_two_size _ _ hx (by omega)
          rw [hmod, if_neg (by omega), if_neg (by omega)]
          omega
    have hRead := Read_eq ((b.Write p).buf) p.length p.length (by rw [hBlen]; simp) hp
    rw [hRead]
    refine ⟨?_, rfl⟩
    rw [hBbuf, hBr, hBsize]
    exact readSpan_write_back b.buf p b.r b.size h1 h3 hlen2

/-- Witness for C1: a capacity-3 empty buffer with both cursors at
position 2, so that the three written bytes wrap around the end of the
backing array and are read back intact. -/
theorem C1_round_trip_witness :
    (((⟨[0, 0, 0], 3, 2, 2, false⟩ : Buffer).Write [7, 8, 9]).buf.Read 3).data = [7, 8, 9] ∧
      (((⟨[0, 0, 0], 3, 2, 2, false⟩ : Buffer).Write [7, 8, 9]).buf.Read 3).n = 3 :=
  C1_round_trip _ [7, 8, 9] (by decide) (by decide) (by decide)

theorem getD_take_of_lt (l : List Nat) (m i d : Nat) (h : i < m) :
    (l.take m).getD i d = l.getD i d := by
  simp [List.getD_eq_getElem?_getD, List.getElem?_take, h]

theorem getD_drop_add (l : List Nat) (m i d : Nat) :
    (l.drop m).getD i d = l.getD (m + i) d := by
  simp [List.getD_eq_getElem?_getD, List.getElem?_drop]

theorem getD_append_lt (l1 l2 : List Nat) (i d : Nat) (h : i < l1.length) :
    (l1 ++ l2).getD i d = l1.getD i d := by
  simp [List.getD_eq_getElem?_getD, List.getElem?_append, h]

theorem getD_append_ge (l1 l2 : List Nat) (i d : Nat) (h : l1.length ≤ i) :
    (l1 ++ l2).getD i d = l2.getD (i - l1.length) d := by
  simp [List.getD_eq_getElem?_getD, List.getElem?_append_right h]

theorem contents_getD (b : Buffer) (n : Nat) (hwf : b.WF) (hn : n < b.Length) :
    b.contents.getD n 0 = b.buf.getD ((b.r + n) % b.size) 0 := by
  have hL : b.Length ≤ b.size := length_le_size_of_wf b hwf
  obtain ⟨h1, h2, h3, h4, h5⟩ := hwf
  unfold Buffer.contents readSpan
  by_cases hc : b.r + b.Length ≤ b.size
  · rw [if_pos hc, slice]
    have hsub : b.r + b.Length - b.r = b.Length := by omega
    rw [hsub, getD_take_of_lt _ _ _ _ hn, getD_drop_add]
    rw [Nat.mod_eq_of_lt (by omega)]
  · rw [if_neg hc, slice, slice]
    simp only [List.drop_zero, Nat.sub_zero]
    by_cases hsplit : n < b.size - b.r
    · rw [getD_append_lt _ _ _ _ (by rw [List.length_take, List.length_drop, h1]; omega)]
      rw [getD_take_of_lt _ _ _ _ hsplit, getD_drop_add]
      rw [Nat.mod_eq_of_lt (by omega)]
    · rw [getD_append_ge _ _ _ _ (by rw [List.length_take, List.length_drop, h1]; omega)]
      have hfl : ((b.buf.drop b.r).take (b.size - b.r)).length = b.size - b.r := by
        rw [List.length_take, List.length_drop, h1]
        omega
      rw [hfl, getD_take_of_lt _ _ _ _ (by omega)]
      rw [mod_two_size _ _ (by omega) (by omega)]
      congr 1
      omega

/-- C8 (amended): `CharAt` fails fatally exactly when the buffer is
empty.  On a non-empty buffer it never fails: it returns the byte at
array index `(readPos + n) % capacity`, which equals the occupied byte
at logical offset `n` whenever `0 ≤ n < Length()`; for `n ≥ Length()`
it silently returns a byte outside the occupied region instead of
failing (see the counterexample for a concrete stale byte). -/
theorem C8_charAt_total (b : Buffer) (n : Nat) (hwf : b.WF) :
    (b.IsEmpty = true → b.CharAt n = none) ∧
      (b.IsEmpty = false →
        b.CharAt n = some (b.buf.getD ((b.r + n) % b.size) 0) ∧
          (n < b.Length → b.CharAt n = some (b.contents.getD n 0))) := by
  constructor
  · intro he
    unfold Buffer.CharAt
    rw [he]
    rfl
  · intro he
    unfold Buffer.CharAt
    rw [he]
    refine ⟨rfl, fun hlt => ?_⟩
    rw [contents_getD b n hwf hlt]
    rfl

/-- Witness for C8 (amended) at a concrete one-byte-occupied buffer and
offset 0. -/
theorem C8_charAt_total_witness :
    ((⟨[5, 6], 2, 0, 1, false⟩ : Buffer).IsEmpty = true →
        (⟨[5, 6], 2, 0, 1, false⟩ : Buffer).CharAt 0 = none) ∧
      ((⟨[5, 6], 2, 0, 1, false⟩ : Buffer).IsEmpty = false →
        (⟨[5, 6], 2, 0, 1, false⟩ : Buffer).CharAt 0 =
            some ((⟨[5, 6], 2, 0, 1, false⟩ : Buffer).buf.getD
              (((⟨[5, 6], 2, 0, 1, false⟩ : Buffer).r + 0) %
                (⟨[5, 6], 2, 0, 1, false⟩ : Buffer).size) 0) ∧
          (0 < (⟨[5, 6], 2, 0, 1, false⟩ : Buffer).Length →
            (⟨[5, 6], 2, 0, 1, false⟩ : Buffer).CharAt 0 =
              some ((⟨[5, 6], 2, 0, 1, false⟩ : Buffer).contents.getD 0 0))) :=
  C8_charAt_total _ 0 (by decide)

/-- C10: from every well-formed starting state and for every source
slice, the two Write variants produce the same final buffer state
(stored bytes, cursors and full flag) and the same written count; their
results differ at most in the error value when the source exceeds the
free space, where the first variant reports the full-buffer error and
the second the too-much-data error. -/
theorem C10_write_variants_equivalent (b : Buffer) (p : List Nat) (hwf : b.WF) :
    (b.Write p).buf = (b.Write2 p).buf ∧ (b.Write p).n = (b.Write2 p).n ∧
      ((b.Write p).err = (b.Write2 p).err ∨
        (b.Free < p.length ∧ (b.Write p).err = some GoErr.isFull ∧
          (b.Write2 p).err = some GoErr.tooMuchData)) := by
  obtain ⟨h1, h2, h3, h4, h5⟩ := hwf
  by_cases hp : p.length = 0
  · refine ⟨?_, ?_, Or.inl ?_⟩ <;> simp [Buffer.Write, Buffer.Write2, hp]
  by_cases hfl : b.isFull = true
  · refine ⟨?_, ?_, Or.inl ?_⟩ <;> simp [Buffer.Write, Buffer.Write2, hp, hfl]
  have hful : b.isFull = false := by
    cases hb : b.isFull
    · rfl
    · exact absurd hb hfl
  obtain ⟨A, hA⟩ : ∃ x, x = (if b.r ≤ b.w then b.size - b.w + b.r else b.r - b.w) :=
    ⟨_, rfl⟩
  have hAle : A ≤ b.size := by rw [hA]; split_ifs <;> omega
  have hfree : b.Free = A := by
    unfold Buffer.Free
    rw [hA]
    simp only [hful]
    split_ifs <;> first | omega | contradiction
  obtain ⟨n1, hn1⟩ : ∃ x, x = (if A > p.length then p.length else A) := ⟨_, rfl⟩
  have hn1A : n1 ≤ A := by rw [hn1]; split_ifs <;> omega
  have hn1p : n1 ≤ p.length := by rw [hn1]; split_ifs <;> omega
  obtain ⟨q, hqdef⟩ : ∃ x, x = (if p.length > A then p.take A else p) := ⟨_, rfl⟩
  have hq : q = p.take n1 := by
    rw [hqdef, hn1]
    by_cases hgt : p.length > A
    · rw [if_pos hgt, if_neg (by omega)]
    · rw [if_neg hgt]
      by_cases hgt2 : A > p.length
      · rw [if_pos hgt2]
        exact (List.take_length p).symm
      · rw [if_neg hgt2, show A = p.length from by omega]
        exact (List.take_length p).symm
  have hqlen : q.length = n1 := by rw [hq, List.length_take]; omega
  have hW := Write_eq b p A n1 hful hp hA hn1
  have hW2 := Write2_eq b p A n1 q _ _ hful hp hA hqdef hqlen.symm rfl rfl
  refine ⟨?_, ?_, ?_⟩
  · rw [hW, hW2]
    dsimp only
    rw [hq]
    by_cases hrw : b.r ≤ b.w
    · have hAv : A = b.size - b.w + b.r := by rw [hA, if_pos hrw]
      by_cases hc1 : n1 ≤ b.size - b.w
      · simp only [hrw, hc1, if_true, ite_true]
        simp only [Buffer.mk.injEq]
        refine ⟨trivial, trivial, trivial, ?_, ?_⟩
        · by_cases hz : b.w + n1 = b.size
          · rw [if_pos hz, hz, Nat.mod_self]
          · rw [if_neg hz, Nat.mod_eq_of_lt (by omega)]
        · by_cases hz : b.w + n1 = b.size
          · rw [if_pos hz, hz, Nat.mod_self]
          · rw [if_neg hz, Nat.mod_eq_of_lt (by omega)]
      · simp only [hrw, hc1, if_true, ite_true, if_false, ite_false]
        simp only [Buffer.mk.injEq]
        have harith : b.w + n1 - b.size = n1 - (b.size - b.w) := by omega
        refine ⟨?_, trivial, trivial, ?_, ?_⟩
        · rw [List.take_take, min_eq_left (by omega), List.drop_take]
          simp only [goCopy, Nat.sub_zero]
          rw [List.take_take, min_eq_right (by omega), List.take_take,
            min_eq_right (by omega)]
        · rw [if_neg (by omega), mod_two_size _ _ (by omega) (by omega), harith]
        · rw [if_neg (by omega), mod_two_size _ _ (by omega) (by omega), harith]
    · have hAv : A = b.r - b.w := by rw [hA, if_neg hrw]
      simp only [hrw, if_false, ite_false]
      simp only [Buffer.mk.injEq]
      refine ⟨?_, trivial, trivial, ?_, ?_⟩
      · simp only [goCopy]
        rw [Nat.add_sub_cancel_left]
        rw [List.take_take, min_self]
        rw [List.take_take, min_eq_right (by omega)]
      · rw [if_neg (by omega), Nat.mod_eq_of_lt (by omega)]
      · rw [if_neg (by omega), Nat.mod_eq_of_lt (by omega)]
  · rw [hW, hW2]
  · by_cases hgt : p.length > A
    · refine Or.inr ⟨by rw [hfree]; omega, ?_, ?_⟩
      · rw [hW]
        dsimp only
        rw [if_pos hgt]
      · rw [hW2]
        dsimp only
        rw [if_pos hgt]
    · refine Or.inl ?_
      rw [hW, hW2]
      dsimp only
      rw [if_neg hgt, if_neg hgt]

/-- Witness for C10 at a concrete wrap-around state: capacity 5, read
cursor at 3, write cursor at 1, written with two bytes. -/
theorem C10_write_variants_equivalent_witness :
    ((⟨[0, 0, 0, 0, 0], 5, 3, 1, false⟩ : Buffer).Write [8, 9]).buf =
        ((⟨[0, 0, 0, 0, 0], 5, 3, 1, false⟩ : Buffer).Write2 [8, 9]).buf ∧
      ((⟨[0, 0, 0, 0, 0], 5, 3, 1, false⟩ : Buffer).Write [8, 9]).n =
        ((⟨[0, 0, 0, 0, 0], 5, 3, 1, false⟩ : Buffer).Write2 [8, 9]).n ∧
      (((⟨[0, 0, 0, 0, 0], 5, 3, 1, false⟩ : Buffer).Write [8, 9]).err =
          ((⟨[0, 0, 0, 0, 0], 5, 3, 1, false⟩ : Buffer).Write2 [8, 9]).err ∨
        ((⟨[0, 0, 0, 0, 0], 5, 3, 1, false⟩ : Buffer).Free < [8, 9].length ∧
          ((⟨[0, 0, 0, 0, 0], 5, 3, 1, false⟩ : Buffer).Write [8, 9]).err = some GoErr.isFull ∧
          ((⟨[0, 0, 0, 0, 0], 5, 3, 1, false⟩ : Buffer).Write2 [8, 9]).err =
            some GoErr.tooMuchData)) :=
  C10_write_variants_equivalent _ [8, 9] (by decide)

theorem readSpan_write_full (buf q : List Nat) (r w sz n L : Nat)
    (hbl : buf.length = sz) (hr : r < sz) (hw : w < sz)
    (hn : q.length = n)
    (havail : n = if r ≤ w then sz - w + r else r - w)
    (hL : L = if w = r then 0 else if r < w then w - r else sz - r + w) :
    readSpan (if r ≤ w then
        if n ≤ sz - w then goCopy buf w sz q
        else goCopy (goCopy buf w sz (q.take (sz - w))) 0 sz (q.drop (sz - w))
      else goCopy buf w sz q)
      r sz sz
    = readSpan buf r sz L ++ q := by
  by_cases hrw : r ≤ w
  · have hnv : n = sz - w + r := by rw [havail, if_pos hrw]
    by_cases hr0 : r = 0
    · rw [if_pos hrw, if_pos (by omega)]
      subst hr0
      have hLw : L = w := by rw [hL]; split_ifs <;> omega
      have hbuf1 : goCopy buf w sz q = buf.take w ++ q := by
        rw [goCopy, List.take_of_length_le (l := q) (by omega)]
        rw [setRange_eq _ _ _ (by omega)]
        rw [show w + q.length = sz from by omega]
        rw [List.drop_eq_nil_of_le (by omega), List.append_nil]
      rw [hbuf1, readSpan, if_pos (by omega), slice]
      simp only [List.drop_zero, Nat.sub_zero, Nat.zero_add]
      rw [List.take_of_length_le (l := buf.take w ++ q)
        (by rw [List.length_append, List.length_take]; omega)]
      rw [hLw, readSpan, if_pos (by omega), slice]
      simp only [List.drop_zero, Nat.sub_zero, Nat.zero_add]
    · rw [if_pos hrw, if_neg (by omega)]
      have hLw : L = w - r := by rw [hL]; split_ifs <;> omega
      have hq1 : (q.take (sz - w)).length = sz - w := by rw [List.length_take]; omega
      have hq2 : (q.drop (sz - w)).length = r := by rw [List.length_drop]; omega
      have hY : goCopy buf w sz (q.take (sz - w)) = buf.take w ++ q.take (sz - w) := by
        rw [goCopy, List.take_take, min_self]
        rw [setRange_eq _ _ _ (by rw [hq1]; omega)]
        rw [show w + (q.take (sz - w)).length = sz from by rw [hq1]; omega]
        rw [List.drop_eq_nil_of_le (by omega), List.append_nil]
      have htk : (q.drop (sz - w)).take (sz - 0) = q.drop (sz - w) := by
        rw [Nat.sub_zero]
        exact List.take_of_length_le (by omega)
      have hX : goCopy (buf.take w ++ q.take (sz - w)) 0 sz (q.drop (sz - w))
          = q.drop (sz - w) ++ ((buf.take w).drop r ++ q.take (sz - w)) := by
        rw [goCopy, htk]
        rw [setRange_zero _ _
          (by rw [hq2, List.length_append, List.length_take, hq1]; omega)]
        rw [hq2]
        rw [List.drop_append_of_le_length (by rw [List.length_take]; omega)]
      rw [hY, hX, readSpan, if_neg (by omega), slice, slice]
      simp only [List.drop_zero, Nat.sub_zero]
      rw [show sz - (sz - r) = r from by omega]
      generalize hM : (buf.take w).drop r = M
      have hMlen : M.length = w - r := by
        rw [← hM, List.length_drop, List.length_take]
        omega
      rw [drop_len_append _ _ _ hq2, take_len_append _ _ _ hq2]
      rw [List.take_of_length_le (l := M ++ q.take (sz - w))
        (by rw [List.length_append, hMlen, hq1]; omega)]
      rw [hLw, readSpan, if_pos (by omega), slice]
      rw [show r + (w - r) - r = w - r from by omega]
      rw [List.append_assoc, List.take_append_drop]
      rw [← hM, List.drop_take]
  · rw [if_neg hrw]
    have hnv : n = r - w := by rw [havail, if_neg hrw]
    have hLw : L = sz - r + w := by rw [hL]; split_ifs <;> omega
    have hbuf1 : goCopy buf w sz q = buf.take w ++ q ++ buf.drop r := by
      rw [goCopy, List.take_of_length_le (l := q) (by omega)]
      rw [setRange_eq _ _ _ (by omega)]
      rw [show w + q.length = r from by omega]
    rw [hbuf1, readSpan, if_neg (by omega), slice, slice]
    simp only [List.drop_zero, Nat.sub_zero]
    rw [show sz - (sz - r) = r from by omega]
    have hTq : (buf.take w ++ q).length = r := by
      rw [List.length_append, List.length_take]
      omega
    rw [drop_len_append _ _ _ hTq, take_len_append _ _ _ hTq]
    rw [List.take_of_length_le (l := buf.drop r) (by rw [List.length_drop]; omega)]
    rw [hLw, readSpan]
    by_cases hw0 : w = 0
    · subst hw0
      rw [if_pos (by omega), slice]
      simp only [Nat.add_zero, List.take_zero, List.nil_append]
      rw [show r + (sz - r) - r = sz - r from by omega]
      rw [List.take_of_length_le (l := buf.drop r) (by rw [List.length_drop]; omega)]
    · rw [if_neg (by omega), slice, slice]
      simp only [List.drop_zero, Nat.sub_zero]
      rw [show sz - r + w - (sz - r) = w from by omega]
      rw [List.take_of_length_le (l := buf.drop r) (by rw [List.length_drop]; omega)]
      rw [List.append_assoc]

/-- C6 (amended): whenever the second variant `Write` signals the
too-much-data condition, the buffer is not left unmodified: a short
write happens instead — exactly `Free()` bytes are written, the
returned count equals the prior `Free()`, the buffer ends completely
full, and its occupied bytes are the old occupied bytes followed by the
prefix of the source of length `Free()`. -/
theorem C6_too_much_data_short_write (b : Buffer) (p : List Nat) (hwf : b.WF)
    (herr : (b.Write2 p).err = some GoErr.tooMuchData) :
    (b.Write2 p).n = b.Free ∧ (b.Write2 p).buf.IsFull = true ∧
      (b.Write2 p).buf.Length = b.Capacity ∧
      (b.Write2 p).buf.contents = b.contents ++ p.take b.Free := by
  obtain ⟨h1, h2, h3, h4, h5⟩ := hwf
  by_cases hp : p.length = 0
  · simp [Buffer.Write2, hp] at herr
  by_cases hfull : b.isFull = true
  · simp [Buffer.Write2, hp, hfull] at herr
  have hful : b.isFull = false := by
    cases hb : b.isFull
    · rfl
    · exact absurd hb hfull
  by_cases hgt : p.length > (if b.r ≤ b.w then b.size - b.w + b.r else b.r - b.w)
  case neg =>
    rw [Write2_eq b p _ p.length p _ _ hful hp rfl (if_neg hgt).symm rfl rfl rfl] at herr
    dsimp only at herr
    rw [if_neg hgt] at herr
    exact Option.noConfusion herr
  case pos =>
    have hA : (if b.r ≤ b.w then b.size - b.w + b.r else b.r - b.w) ≤ p.length := by omega
    have hn' : (p.take (if b.r ≤ b.w then b.size - b.w + b.r else b.r - b.w)).length
        = (if b.r ≤ b.w then b.size - b.w + b.r else b.r - b.w) := by
      rw [List.length_take]
      omega
    have hW := Write2_eq b p (if b.r ≤ b.w then b.size - b.w + b.r else b.r - b.w)
      (if b.r ≤ b.w then b.size - b.w + b.r else b.r - b.w)
      (p.take (if b.r ≤ b.w then b.size - b.w + b.r else b.r - b.w)) _ _
      hful hp rfl (if_pos hgt).symm hn'.symm rfl rfl
    have hfree : b.Free = (if b.r ≤ b.w then b.size - b.w + b.r else b.r - b.w) := by
      unfold Buffer.Free
      split_ifs <;> omega
    have hWw : (b.Write2 p).buf.w = b.r := by
      rw [hW]
      dsimp only
      split_ifs <;> omega
    have hWfull : (b.Write2 p).buf.isFull = true := by
      rw [hW]
      dsimp only
      apply decide_eq_true
      split_ifs <;> omega
    have hWr : (b.Write2 p).buf.r = b.r := by rw [hW]
    have hWsize : (b.Write2 p).buf.size = b.size := by rw [hW]
    have hWn : (b.Write2 p).n = (if b.r ≤ b.w then b.size - b.w + b.r else b.r - b.w) := by
      rw [hW]
    have hWlen : (b.Write2 p).buf.Length = b.size := by
      unfold Buffer.Length
      rw [hWw, hWr, hWsize, hWfull]
      simp
    have hLen0 : b.Length = if b.w = b.r then 0 else if b.r < b.w then b.w - b.r
        else b.size - b.r + b.w := by
      unfold Buffer.Length
      rw [hful, if_neg (show ¬ (false = true) from by decide)]
    refine ⟨by rw [hWn, hfree], by unfold Buffer.IsFull; exact hWfull,
      by rw [hWlen]; rfl, ?_⟩
    unfold Buffer.contents
    rw [hWr, hWsize, hWlen, hfree, hW]
    exact readSpan_write_full b.buf
      (p.take (if b.r ≤ b.w then b.size - b.w + b.r else b.r - b.w)) b.r b.w b.size
      (if b.r ≤ b.w then b.size - b.w + b.r else b.r - b.w) b.Length
      h1 h3 h4 hn' rfl hLen0

/-- Witness for C6 (amended): an empty capacity-2 buffer written with
three bytes signals too-much-data, writes the 2 free bytes (the prefix
of the source), and ends full. -/
theorem C6_too_much_data_short_write_witness :
    ((⟨[0, 0], 2, 0, 0, false⟩ : Buffer).Write2 [1, 2, 3]).n =
        (⟨[0, 0], 2, 0, 0, false⟩ : Buffer).Free ∧
      ((⟨[0, 0], 2, 0, 0, false⟩ : Buffer).Write2 [1, 2, 3]).buf.IsFull = true ∧
      ((⟨[0, 0], 2, 0, 0, false⟩ : Buffer).Write2 [1, 2, 3]).buf.Length =
        (⟨[0, 0], 2, 0, 0, false⟩ : Buffer).Capacity ∧
      ((⟨[0, 0], 2, 0, 0, false⟩ : Buffer).Write2 [1, 2, 3]).buf.contents =
        (⟨[0, 0], 2, 0, 0, false⟩ : Buffer).contents ++
          [1, 2, 3].take (⟨[0, 0], 2, 0, 0, false⟩ : Buffer).Free :=
  C6_too_much_data_short_write _ [1, 2, 3] (by decide) (by decide)


end RingBuffer
